/-
Verification of the markdown-reassembly core, encoding utilities and CLI
shell of the mistral_ocr repository, as a shallow embedding in Lean 4.

Strings are modelled as `List Char`.  Python's `str.replace` and the
greedy occurrence scan behind it are modelled with fuel-based structural
recursion (one unit of fuel per consumed character, so `s.length` fuel is
always enough); this keeps every definition kernel-executable.
-/
import Mathlib

namespace MistralOcr

/-! ## Python string primitives (`str.replace`, `str.split`, `str.join`) -/

/-- Model of CPython `str.join`: separator between consecutive elements,
empty result on the empty list. -/
def joinL (sep : List Char) : List (List Char) → List Char
  | [] => []
  | [x] => x
  | x :: y :: ys => x ++ sep ++ joinL sep (y :: ys)

/-- Helper for the split scan: prepend a character to the first piece. -/
def consHead (c : Char) : List (List Char) → List (List Char)
  | [] => [[c]]
  | p :: ps => (c :: p) :: ps

/-- Fuel-driven scan of CPython `str.replace` for a nonempty pattern:
at each position, if the pattern matches, emit the replacement and skip
the matched characters; otherwise keep the character.  Matches are found
left to right and do not overlap. -/
def pyReplaceF (pat rep : List Char) : Nat → List Char → List Char
  | _, [] => []
  | 0, c :: cs => c :: cs
  | f + 1, c :: cs =>
    if pat.isPrefixOf (c :: cs) then
      rep ++ pyReplaceF pat rep f (cs.drop (pat.length - 1))
    else
      c :: pyReplaceF pat rep f cs

/-- Model of CPython `str.replace` (all occurrences, left to right,
non-overlapping).  For the empty pattern CPython interleaves the
replacement around every character; that case is never reached by the
repository code, whose patterns always contain brackets. -/
def pythonReplace (s pat rep : List Char) : List Char :=
  if pat = [] then rep ++ s.foldr (fun c acc => c :: (rep ++ acc)) []
  else pyReplaceF pat rep s.length s

/-- Fuel-driven scan of CPython `str.split` for a nonempty separator:
the same greedy left-to-right scan as `pyReplaceF`, collecting the
pieces between occurrences. -/
def pySplitF (pat : List Char) : Nat → List Char → List (List Char)
  | _, [] => [[]]
  | 0, c :: cs => [c :: cs]
  | f + 1, c :: cs =>
    if pat.isPrefixOf (c :: cs) then
      [] :: pySplitF pat f (cs.drop (pat.length - 1))
    else
      consHead c (pySplitF pat f cs)

/-- Model of CPython `str.split` with a nonempty separator. -/
def pySplit (s pat : List Char) : List (List Char) := pySplitF pat s.length s

/-! ## Markdown assembler (src/mistral_ocr/utils/markdown.py) -/

/-- The image placeholder text searched for by
`replace_images_in_markdown`: the literal substring occurrence
of the name in both link text and target. -/
def placeholder (name : List Char) : List Char :=
  "![".data ++ name ++ "](".data ++ name ++ ")".data

/-- The replacement text written by `replace_images_in_markdown`: the
placeholder target rewritten to a data URL with MIME hardcoded to
image/jpeg. -/
def dataURLrepl (name v : List Char) : List Char :=
  "![".data ++ name ++ "](data:image/jpeg;base64,".data ++ v ++ ")".data

/-- A Python `dict[str, str | None]` in insertion order: association list
whose keys are unique by construction. -/
abbrev ImagesDict := List (List Char × Option (List Char))

/-- Python dict assignment `d[k] = v`: update the value in place if the
key is present (keeping its position), otherwise append the new entry. -/
def dictSet : ImagesDict → List Char → Option (List Char) → ImagesDict
  | [], k, v => [(k, v)]
  | e :: es, k, v => if e.1 = k then (k, v) :: es else e :: dictSet es k v

/-- Python dict lookup `d.get(k)` returning `none` when the key is absent
and `some value` when present (the value itself is optional). -/
def dictLookup : ImagesDict → List Char → Option (Option (List Char))
  | [], _ => none
  | e :: es, k => if e.1 = k then some e.2 else dictLookup es k

/-- Embedding of `replace_images_in_markdown` (markdown.py lines 6-27):
iterate the dict in insertion order; for each entry whose value
`is not None`, replace every occurrence of the placeholder with the
data-URL form. -/
def replace_images_in_markdown (markdown_str : List Char) (images_dict : ImagesDict) :
    List Char :=
  images_dict.foldl
    (fun md e =>
      match e.2 with
      | none => md
      | some v => pythonReplace md (placeholder e.1) (dataURLrepl e.1 v))
    markdown_str

/-- One image entry of an OCR page: an id and an optional base64 payload.
The `image_base64` attribute always exists on the typed response model
(it is `Optional[str]`), so the `hasattr` test in the source is always
true and absence is represented by `none`. -/
structure OCRImage where
  id : List Char
  image_base64 : Option (List Char)
deriving DecidableEq

/-- One page of an OCR response: markdown text and its image entries. -/
structure OCRPage where
  markdown : List Char
  images : List OCRImage
deriving DecidableEq

/-- The OCR response: an ordered list of pages. -/
structure OCRResponse where
  pages : List OCRPage
deriving DecidableEq

/-- The truthiness normalization in `combine_ocr_pages_to_markdown`
(markdown.py lines 44-49): `img.image_base64 if hasattr(...) and
img.image_base64 else None`, so `None` and the empty string both become
an absent value. -/
def normalizeB64 : Option (List Char) → Option (List Char)
  | none => none
  | some v => if v = [] then none else some v

/-- The per-page id-to-data dict built by the loop in
`combine_ocr_pages_to_markdown`: `image_data[img.id] = ...` for each
image in list order. -/
def buildImageData (images : List OCRImage) : ImagesDict :=
  images.foldl (fun d img => dictSet d img.id (normalizeB64 img.image_base64)) []

/-- Embedding of `combine_ocr_pages_to_markdown` (markdown.py lines
29-56): build each page's dict, substitute, append to the list, and join
the pages with a double newline. -/
def combine_ocr_pages_to_markdown (ocr_response : OCRResponse) : List Char :=
  joinL "\n\n".data
    (ocr_response.pages.foldl
      (fun acc page =>
        acc ++ [replace_images_in_markdown page.markdown (buildImageData page.images)])
      [])

/-- The assembler as the spec states it (section 4.2 `assembleDocument`):
the per-page substituted markdown strings in original page order, joined
by exactly one blank-line separator. -/
def assembleDocument_spec (ocr_response : OCRResponse) : List Char :=
  joinL "\n\n".data
    (ocr_response.pages.map
      (fun page => replace_images_in_markdown page.markdown (buildImageData page.images)))

/-- The substitution as the spec states it (section 4.2
`substituteImages`): every present entry, in mapping order, splits the
current markdown at the literal occurrences of its placeholder and
rejoins with the data-URL form, so that all occurrences are rewritten. -/
def substituteImages_spec (markdown_str : List Char) (images_dict : ImagesDict) :
    List Char :=
  images_dict.foldl
    (fun md e =>
      match e.2 with
      | none => md
      | some v => joinL (dataURLrepl e.1 v) (pySplit md (placeholder e.1)))
    markdown_str

/-! ## Encoding utilities (src/mistral_ocr/utils/encoding.py) -/

/-- The RFC 4648 standard base64 alphabet used by Python
`base64.b64encode`. -/
def b64Alphabet : List Char :=
  "ABCDEFGHIJKLMNOPQRSTUVWXYZabcdefghijklmnopqrstuvwxyz0123456789+/".data

/-- The base64 character for a sextet value below 64. -/
def encodeChar (n : Nat) : Char := b64Alphabet.getD n '='

/-- The sextet value of a base64 alphabet character. -/
def decodeChar (c : Char) : Nat := b64Alphabet.findIdx (fun x => x == c)

/-- Model of Python `base64.b64encode` on a byte sequence (bytes as
naturals below 256): three bytes become four characters; a trailing one-
or two-byte group is padded with `=`.  No line wrapping. -/
def b64encode : List Nat → List Char
  | [] => []
  | [a] => [encodeChar (a / 4), encodeChar (a % 4 * 16), '=', '=']
  | [a, b] =>
    [encodeChar (a / 4), encodeChar (a % 4 * 16 + b / 16), encodeChar (b % 16 * 4), '=']
  | a :: b :: c :: rest =>
    encodeChar (a / 4) :: encodeChar (a % 4 * 16 + b / 16)
      :: encodeChar (b % 16 * 4 + c / 64) :: encodeChar (c % 64) :: b64encode rest

/-- Model of standard base64 decoding (Python `base64.b64decode`) on
well-formed input: four characters back to three bytes, with `=` padding
marking a short final group. -/
def b64decode : List Char → List Nat
  | c1 :: c2 :: c3 :: c4 :: rest =>
    if c3 = '=' then [decodeChar c1 * 4 + decodeChar c2 / 16]
    else if c4 = '=' then
      [decodeChar c1 * 4 + decodeChar c2 / 16,
       decodeChar c2 % 16 * 16 + decodeChar c3 / 4]
    else
      (decodeChar c1 * 4 + decodeChar c2 / 16)
        :: (decodeChar c2 % 16 * 16 + decodeChar c3 / 4)
        :: (decodeChar c3 % 4 * 64 + decodeChar c4)
        :: b64decode rest
  | _ => []

/-- Embedding of `create_data_url` (encoding.py lines 31-41): an
f-string with the default MIME type `application/pdf`. -/
def create_data_url (base64_data : String) (mime_type : String := "application/pdf") :
    String :=
  "data:" ++ mime_type ++ ";base64," ++ base64_data

/-- Outcome of opening and fully reading a file, as distinguished by the
Python exception classes that `encode_pdf_to_base64` catches: a
successful read, a `FileNotFoundError` on open, any other exception on
open (for example `PermissionError`), or an exception during the read. -/
inductive OpenReadOutcome where
  | ok (contents : List Nat)
  | errFileNotFound
  | errOpenOther (msg : String)
  | errRead (msg : String)
deriving DecidableEq

/-- The two error kinds raised by `encode_pdf_to_base64`: the re-raised
`FileNotFoundError` and the generic wrapping `Exception`. -/
inductive EncodeError where
  | notFound (msg : String)
  | encoding (msg : String)
deriving DecidableEq

/-- Embedding of `encode_pdf_to_base64` (encoding.py lines 7-28) over a
filesystem oracle: `except FileNotFoundError` re-raises with a NotFound
message; `except Exception` wraps any other open or read failure in an
Encoding message; on success the file's full contents are base64
encoded. -/
def encode_pdf_to_base64 (fs : String → OpenReadOutcome) (pdf_path : String) :
    Except EncodeError (List Char) :=
  match fs pdf_path with
  | .ok contents => .ok (b64encode contents)
  | .errFileNotFound =>
    .error (.notFound ("The PDF file " ++ pdf_path ++ " was not found."))
  | .errOpenOther m => .error (.encoding ("Error encoding PDF file: " ++ m))
  | .errRead m => .error (.encoding ("Error encoding PDF file: " ++ m))

/-- Whether a result of `encode_pdf_to_base64` is a NotFound-kind
failure. -/
def isNotFoundErr : Except EncodeError (List Char) → Bool
  | .error (.notFound _) => true
  | _ => false

/-- Whether a result of `encode_pdf_to_base64` is an Encoding-kind
failure. -/
def isEncodingErr : Except EncodeError (List Char) → Bool
  | .error (.encoding _) => true
  | _ => false

/-! ## CLI shell (src/mistral_ocr/__main__.py) -/

/-- The namespace produced by the parser declared in `create_parser`:
`--debug`, `--verbose` (also `-v`) and `--include-images` are store-true
flags (the last with default `True`), `--output` (also `-o`) and
`--api-key` take a value, and `pdf_file` is an optional positional. -/
structure ParsedArgs where
  debug : Bool
  verbose : Bool
  output : Option String
  api_key : Option String
  include_images : Bool
  pdf_file : Option String
deriving DecidableEq

/-- The defaults of the parser declared in `create_parser`; in
particular `include_images` defaults to `True`. -/
def initialArgs : ParsedArgs := ⟨false, false, none, none, true, none⟩

/-- Whether argparse treats a token as an optional-argument token: it
starts with a dash and is not the bare `-`. -/
def isOptionLike (t : String) : Bool :=
  match t.data with
  | '-' :: _ :: _ => true
  | _ => false

/-- Model of argparse consuming the token list for the parser declared
in `create_parser` (exact option names; abbreviations, `--opt=value`
forms and the bare `--` separator are conservatively rejected, and
`--version` exits instead of returning a namespace, so it is not an
accepted parse).  Returns `none` whenever argparse would exit without
returning a namespace. -/
def parseArgsAux : List String → ParsedArgs → Bool → Option ParsedArgs
  | [], acc, _ => some acc
  | t :: ts, acc, seenPositional =>
    if t = "--version" then none
    else if t = "--debug" then parseArgsAux ts { acc with debug := true } seenPositional
    else if t = "--verbose" ∨ t = "-v" then
      parseArgsAux ts { acc with verbose := true } seenPositional
    else if t = "--include-images" then
      parseArgsAux ts { acc with include_images := true } seenPositional
    else if t = "--output" ∨ t = "-o" then
      match ts with
      | [] => none
      | v :: ts2 => parseArgsAux ts2 { acc with output := some v } seenPositional
    else if t = "--api-key" then
      match ts with
      | [] => none
      | v :: ts2 => parseArgsAux ts2 { acc with api_key := some v } seenPositional
    else if isOptionLike t then none
    else if seenPositional then none
    else parseArgsAux ts { acc with pdf_file := some t } true

/-- Model of `create_parser().parse_args(tokens)`. -/
def parseArgs (tokens : List String) : Option ParsedArgs :=
  parseArgsAux tokens initialArgs false

/-- Drop trailing path separators, as `pathlib.PurePath` normalization
does before taking the final component. -/
def dropTrailingSlashes (cs : List Char) : List Char :=
  ((cs.reverse).dropWhile (fun c => c == '/')).reverse

/-- The final path component (`Path.name`). -/
def lastComponent (cs : List Char) : List Char :=
  ((cs.reverse).takeWhile (fun c => !(c == '/'))).reverse

/-- CPython `PurePath.suffix` on a file name: the part from the last
dot, provided that dot is neither the first nor the last character of
the name. -/
def pySuffix (name : List Char) : List Char :=
  let revAfter := (name.reverse).takeWhile (fun c => !(c == '.'))
  if revAfter.length = name.length then []
  else if name.length - revAfter.length - 1 ≠ 0 ∧ revAfter.length ≠ 0 then
    '.' :: revAfter.reverse
  else []

/-- The extension test in `main`:
`pdf_path.suffix.lower() == '.pdf'`. -/
def suffixIsPdf (p : String) : Bool :=
  (pySuffix (lastComponent (dropTrailingSlashes p.data))).map Char.toLower == ".pdf".data

/-- Python truthiness of `os.getenv(...)`: an unset variable and the
empty string both fail the `if not self.api_key` check. -/
def envKeyVal : Option String → Option String
  | none => none
  | some t => if t = "" then none else some t

/-- The key resolution in `OCRProcessor.__init__`:
`api_key or os.getenv("MISTRAL_API_KEY")`, then a `ValueError` when the
result is falsy.  Returns the accepted key, or `none` when construction
raises. -/
def resolveKey (cli envKey : Option String) : Option String :=
  match cli with
  | some s => if s = "" then envKeyVal envKey else some s
  | none => envKeyVal envKey

/-- The environment `main` runs against: path existence, the
`MISTRAL_API_KEY` variable, the outcome of `OCRProcessor.process_pdf`
(an exception or the markdown result), and whether a `write_text` to a
given path succeeds. -/
structure CliEnv where
  pathExists : String → Bool
  apiKeyEnv : Option String
  processPdf : String → Bool → Except String (List Char)
  writeText : String → Bool

/-- Observable outcome of one `main` invocation: the returned exit code,
the file writes performed, and the `process_pdf` calls made (path and
`include_images` argument). -/
structure MainOutcome where
  exitCode : Nat
  writes : List (String × List Char)
  procCalls : List (String × Bool)
deriving DecidableEq

/-- Embedding of `main` (__main__.py lines 72-128) over a parsed
namespace: help-and-exit when `pdf_file` is falsy, then the existence
and extension guards, then the try block (processor construction,
`process_pdf`, output to file when `--output` is truthy or stdout
otherwise) with every exception mapped to exit code 1. -/
def mainModel (args : ParsedArgs) (env : CliEnv) : MainOutcome :=
  match args.pdf_file with
  | none => ⟨1, [], []⟩
  | some p =>
    if p = "" then ⟨1, [], []⟩
    else if env.pathExists p = false then ⟨1, [], []⟩
    else if suffixIsPdf p = false then ⟨1, [], []⟩
    else
      match resolveKey args.api_key env.apiKeyEnv with
      | none => ⟨1, [], []⟩
      | some _ =>
        match env.processPdf p args.include_images with
        | Except.error _ => ⟨1, [], [(p, args.include_images)]⟩
        | Except.ok md =>
          match args.output with
          | none => ⟨0, [], [(p, args.include_images)]⟩
          | some o =>
            if o = "" then ⟨0, [], [(p, args.include_images)]⟩
            else if env.writeText o then ⟨0, [(o, md)], [(p, args.include_images)]⟩
            else ⟨1, [], [(p, args.include_images)]⟩

/-- Whether a `process_pdf` outcome is an exception. -/
def exceptFails : Except String (List Char) → Bool
  | Except.error _ => true
  | Except.ok _ => false

/-- Whether the output write raises: only attempted for a truthy
`--output` value. -/
def writeFails (out : Option String) (env : CliEnv) : Bool :=
  match out with
  | none => false
  | some o => if o = "" then false else !(env.writeText o)

/-- Whether anything in the try block of `main` raises: processor
construction without an API key, a `process_pdf` failure, or a failing
output write. -/
def processingFails (args : ParsedArgs) (env : CliEnv) (p : String) : Bool :=
  (resolveKey args.api_key env.apiKeyEnv).isNone
    || exceptFails (env.processPdf p args.include_images)
    || writeFails args.output env

/-- The exit code as the spec states it (section 6): 1 when no input
file is given, when the input is missing, when the extension is not
`.pdf`, or when any processing exception occurs; 0 otherwise. -/
def mainExit_spec (args : ParsedArgs) (env : CliEnv) : Nat :=
  match args.pdf_file with
  | none => 1
  | some p =>
    if p = "" then 1
    else if env.pathExists p = false then 1
    else if suffixIsPdf p = false then 1
    else if processingFails args env p then 1
    else 0

/-- The last image entry of a page's image list carrying a given id, if
any: the entry whose value survives the dict-building loop. -/
def lastMatch : List OCRImage → List Char → Option OCRImage
  | [], _ => none
  | img :: rest, id =>
    match lastMatch rest id with
    | some i => some i
    | none => if img.id = id then some img else none

/-- Whether a dict holds an empty-string base64 value for some key. -/
def hasEmptyB64 : ImagesDict → Bool
  | [] => false
  | e :: es => decide (e.2 = some []) || hasEmptyB64 es

end MistralOcr

namespace MistralOcr

/-! ## Helper lemmas -/

theorem foldl_snoc_eq_map {α β : Type} (f : α → β) :
    ∀ (l : List α) (acc : List β),
      l.foldl (fun a x => a ++ [f x]) acc = acc ++ l.map f := by
  intro l
  induction l with
  | nil => intro acc; simp
  | cons x xs ih => intro acc; simp [ih]

theorem dictLookup_dictSet_self (d : ImagesDict) (k : List Char) (v : Option (List Char)) :
    dictLookup (dictSet d k v) k = some v := by
  induction d with
  | nil => simp [dictSet, dictLookup]
  | cons e es ih =>
    by_cases h : e.1 = k
    · simp [dictSet, dictLookup, h]
    · simp [dictSet, dictLookup, h, ih]

theorem dictLookup_dictSet_other (d : ImagesDict) (k k' : List Char)
    (v : Option (List Char)) (h : k' ≠ k) :
    dictLookup (dictSet d k' v) k = dictLookup d k := by
  induction d with
  | nil => simp [dictSet, dictLookup, h]
  | cons e es ih =>
    by_cases he : e.1 = k'
    · simp [dictSet, dictLookup, he, h]
    · by_cases hek : e.1 = k
      · simp [dictSet, dictLookup, he, hek, Ne.symm h]
      · simp [dictSet, dictLookup, he, hek, ih]

theorem dictLookup_buildImageData_loop :
    ∀ (images : List OCRImage) (d : ImagesDict) (id : List Char),
      dictLookup
        (images.foldl
          (fun acc img => dictSet acc img.id (normalizeB64 img.image_base64)) d) id
        = (lastMatch images id).elim (dictLookup d id)
            (fun img => some (normalizeB64 img.image_base64)) := by
  intro images
  induction images with
  | nil => intro d id; simp [lastMatch]
  | cons img rest ih =>
    intro d id
    rw [List.foldl_cons, ih]
    cases hLM : lastMatch rest id with
    | some i => simp [lastMatch, hLM]
    | none =>
      by_cases him : img.id = id
      · subst him
        simp [lastMatch, hLM, dictLookup_dictSet_self]
      · simp [lastMatch, hLM, him, dictLookup_dictSet_other d id img.id _ him]

theorem normalizeB64_ne_empty (v : Option (List Char)) : normalizeB64 v ≠ some [] := by
  cases v with
  | none => simp [normalizeB64]
  | some x =>
    by_cases h : x = []
    · simp [normalizeB64, h]
    · simp [normalizeB64, h]

theorem hasEmptyB64_dictSet (d : ImagesDict) (k : List Char) (v : Option (List Char))
    (hv : v ≠ some []) (hd : hasEmptyB64 d = false) :
    hasEmptyB64 (dictSet d k v) = false := by
  induction d with
  | nil => simp [dictSet, hasEmptyB64, hv]
  | cons e es ih =>
    simp [hasEmptyB64] at hd
    by_cases h : e.1 = k
    · simp [dictSet, hasEmptyB64, h, hv, hd.2]
    · simp [dictSet, hasEmptyB64, h, hd.1, ih hd.2]

theorem hasEmptyB64_buildImageData_loop :
    ∀ (images : List OCRImage) (d : ImagesDict), hasEmptyB64 d = false →
      hasEmptyB64
        (images.foldl
          (fun acc img => dictSet acc img.id (normalizeB64 img.image_base64)) d)
        = false := by
  intro images
  induction images with
  | nil => intro d hd; simpa using hd
  | cons img rest ih =>
    intro d hd
    rw [List.foldl_cons]
    exact ih _ (hasEmptyB64_dictSet d img.id _ (normalizeB64_ne_empty _) hd)

theorem replace_images_all_none :
    ∀ (dict : ImagesDict) (md : List Char), (∀ e ∈ dict, e.2 = none) →
      replace_images_in_markdown md dict = md := by
  intro dict
  induction dict with
  | nil => intro md _; rfl
  | cons e es ih =>
    intro md h
    have he : e.2 = none := h e (by simp)
    have hs : ∀ x ∈ es, x.2 = none := fun x hx => h x (by simp [hx])
    show (e :: es).foldl _ md = md
    rw [List.foldl_cons]
    simpa [he] using ih md hs

theorem consHead_ne_nil (c : Char) (l : List (List Char)) : consHead c l ≠ [] := by
  cases l <;> simp [consHead]

theorem pySplitF_ne_nil (pat : List Char) :
    ∀ (f : Nat) (s : List Char), pySplitF pat f s ≠ [] := by
  intro f s
  match f, s with
  | _, [] => simp [pySplitF]
  | 0, c :: cs => simp [pySplitF]
  | f + 1, c :: cs =>
    rw [pySplitF]
    split
    · simp
    · exact consHead_ne_nil _ _

theorem exists_append_of_isPrefixOf :
    ∀ {l₁ l₂ : List Char}, l₁.isPrefixOf l₂ = true → ∃ t, l₁ ++ t = l₂ := by
  intro l₁
  induction l₁ with
  | nil => intro l₂ _; exact ⟨l₂, rfl⟩
  | cons a as ih =>
    intro l₂ h
    cases l₂ with
    | nil => simp [List.isPrefixOf] at h
    | cons b bs =>
      simp only [List.isPrefixOf, Bool.and_eq_true, beq_iff_eq] at h
      obtain ⟨t, ht⟩ := ih h.2
      exact ⟨t, by simp [h.1, ht]⟩

theorem isPrefixOf_of_append :
    ∀ (l₁ t l₂ : List Char), l₁ ++ t = l₂ → l₁.isPrefixOf l₂ = true := by
  intro l₁
  induction l₁ with
  | nil => intro t l₂ _; simp [List.isPrefixOf]
  | cons a as ih =>
    intro t l₂ h
    cases l₂ with
    | nil => simp at h
    | cons b bs =>
      simp at h
      simp only [List.isPrefixOf, Bool.and_eq_true, beq_iff_eq]
      exact ⟨h.1, ih t bs h.2⟩

theorem pyReplaceF_eq_joinL (pat rep : List Char) :
    ∀ (f : Nat) (s : List Char), pyReplaceF pat rep f s = joinL rep (pySplitF pat f s) := by
  intro f
  induction f with
  | zero =>
    intro s
    cases s with
    | nil => simp [pyReplaceF, pySplitF, joinL]
    | cons c cs => simp [pyReplaceF, pySplitF, joinL]
  | succ f ih =>
    intro s
    cases s with
    | nil => simp [pyReplaceF, pySplitF, joinL]
    | cons c cs =>
      rw [pyReplaceF, pySplitF]
      split
      · obtain ⟨t, ts, hT⟩ : ∃ t ts, pySplitF pat f (cs.drop (pat.length - 1)) = t :: ts := by
          cases h : pySplitF pat f (cs.drop (pat.length - 1)) with
          | nil => exact absurd h (pySplitF_ne_nil pat f _)
          | cons t ts => exact ⟨t, ts, rfl⟩
        rw [ih, hT, joinL]
        cases ts <;> simp [joinL]
      · obtain ⟨t, ts, hT⟩ : ∃ t ts, pySplitF pat f cs = t :: ts := by
          cases h : pySplitF pat f cs with
          | nil => exact absurd h (pySplitF_ne_nil pat f _)
          | cons t ts => exact ⟨t, ts, rfl⟩
        rw [ih, hT, consHead]
        cases ts <;> simp [joinL]

theorem joinL_pySplitF (pat : List Char) (hpat : pat ≠ []) :
    ∀ (f : Nat) (s : List Char), s.length ≤ f → joinL pat (pySplitF pat f s) = s := by
  intro f
  induction f with
  | zero =>
    intro s hs
    have : s = [] := List.eq_nil_of_length_eq_zero (Nat.le_zero.mp hs)
    subst this
    simp [pySplitF, joinL]
  | succ f ih =>
    intro s hs
    cases s with
    | nil => simp [pySplitF, joinL]
    | cons c cs =>
      rw [pySplitF]
      split
      case isTrue hpre =>
        obtain ⟨tl, htl⟩ := exists_append_of_isPrefixOf hpre
        obtain ⟨m, hm⟩ : ∃ m, pat.length = m + 1 := by
          cases pat with
          | nil => exact absurd rfl hpat
          | cons x xs => exact ⟨xs.length, rfl⟩
        have hdrop : cs.drop (pat.length - 1) = tl := by
          have h1 : (c :: cs).drop pat.length = tl := by
            rw [← htl]
            exact List.drop_left pat tl
          rw [hm] at h1
          simpa [hm] using h1
        obtain ⟨t, ts, hT⟩ : ∃ t ts, pySplitF pat f (cs.drop (pat.length - 1)) = t :: ts := by
          cases h : pySplitF pat f (cs.drop (pat.length - 1)) with
          | nil => exact absurd h (pySplitF_ne_nil pat f _)
          | cons t ts => exact ⟨t, ts, rfl⟩
        have hlen : (cs.drop (pat.length - 1)).length ≤ f := by
          have := List.length_drop (pat.length - 1) cs
          simp at hs
          omega
        have hjoin := ih (cs.drop (pat.length - 1)) hlen
        rw [hT] at hjoin ⊢
        rw [joinL]
        cases ts with
        | nil =>
          simp [joinL] at hjoin ⊢
          rw [hjoin, hdrop, htl]
        | cons u us =>
          simp [joinL] at hjoin ⊢
          rw [hjoin, hdrop, htl]
      case isFalse hpre =>
        obtain ⟨t, ts, hT⟩ : ∃ t ts, pySplitF pat f cs = t :: ts := by
          cases h : pySplitF pat f cs with
          | nil => exact absurd h (pySplitF_ne_nil pat f _)
          | cons t ts => exact ⟨t, ts, rfl⟩
        have hlen : cs.length ≤ f := by simp at hs; omega
        have hjoin := ih cs hlen
        rw [hT] at hjoin ⊢
        rw [consHead]
        cases ts with
        | nil => simp [joinL] at hjoin ⊢; rw [hjoin]
        | cons u us =>
          rw [joinL] at hjoin ⊢
          simp [← hjoin]

theorem exists_append_joinL_head (sep t : List Char) (ts : List (List Char)) :
    ∃ r, t ++ r = joinL sep (t :: ts) := by
  cases ts with
  | nil => exact ⟨[], by simp [joinL]⟩
  | cons u us => exact ⟨sep ++ joinL sep (u :: us), by simp [joinL]⟩

theorem eq_nil_of_inside_nil {q : List Char} (h : q <:+: ([] : List Char)) : q = [] := by
  obtain ⟨x, y, hxy⟩ := h
  have h1 := List.append_eq_nil.mp hxy
  exact (List.append_eq_nil.mp h1.1).2

theorem inside_cons_cases {q : List Char} {a : Char} {t : List Char}
    (h : q <:+: a :: t) : (∃ r, q ++ r = a :: t) ∨ q <:+: t := by
  obtain ⟨x, y, hxy⟩ := h
  cases x with
  | nil => exact Or.inl ⟨y, by simpa using hxy⟩
  | cons b bs =>
    right
    simp at hxy
    exact ⟨bs, y, by rw [List.append_assoc]; exact hxy.2⟩

theorem pySplitF_pieces_no_occurrence (pat : List Char) (hpat : pat ≠ []) :
    ∀ (f : Nat) (s : List Char), s.length ≤ f →
      ∀ p ∈ pySplitF pat f s, ¬ (pat <:+: p) := by
  intro f
  induction f with
  | zero =>
    intro s hs
    have : s = [] := List.eq_nil_of_length_eq_zero (Nat.le_zero.mp hs)
    subst this
    intro p hp
    simp [pySplitF] at hp
    subst hp
    intro hinf
    exact hpat (eq_nil_of_inside_nil hinf)
  | succ f ih =>
    intro s hs
    cases s with
    | nil =>
      intro p hp
      simp [pySplitF] at hp
      subst hp
      intro hinf
      exact hpat (eq_nil_of_inside_nil hinf)
    | cons c cs =>
      rw [pySplitF]
      split
      case isTrue hpre =>
        intro p hp
        have hlen : (cs.drop (pat.length - 1)).length ≤ f := by
          have := List.length_drop (pat.length - 1) cs
          simp at hs
          omega
        rcases List.mem_cons.mp hp with h | h
        · subst h
          intro hinf
          exact hpat (eq_nil_of_inside_nil hinf)
        · exact ih _ hlen p h
      case isFalse hpre =>
        intro p hp
        have hlen : cs.length ≤ f := by simp at hs; omega
        obtain ⟨t, ts, hT⟩ : ∃ t ts, pySplitF pat f cs = t :: ts := by
          cases h : pySplitF pat f cs with
          | nil => exact absurd h (pySplitF_ne_nil pat f _)
          | cons t ts => exact ⟨t, ts, rfl⟩
        rw [hT, consHead] at hp
        rcases List.mem_cons.mp hp with h | h
        · subst h
          intro hinf
          rcases inside_cons_cases hinf with ⟨r, hr⟩ | htail
          · -- the pattern would have matched at this position
            obtain ⟨r2, hr2⟩ := exists_append_joinL_head pat t ts
            have hjoin := joinL_pySplitF pat hpat f cs hlen
            rw [hT] at hjoin
            have hcs : t ++ r2 = cs := by rw [hr2, hjoin]
            have : pat.isPrefixOf (c :: cs) = true := by
              apply isPrefixOf_of_append pat (r ++ r2)
              calc pat ++ (r ++ r2) = (pat ++ r) ++ r2 := by rw [List.append_assoc]
                _ = (c :: t) ++ r2 := by rw [hr]
                _ = c :: (t ++ r2) := by simp
                _ = c :: cs := by rw [hcs]
            exact hpre this
          · exact ih cs hlen t (by rw [hT]; exact List.mem_cons_self t ts) htail
        · exact ih cs hlen p (by rw [hT]; exact List.mem_cons_of_mem t h)

theorem inside_joinL_of_mem (sep : List Char) :
    ∀ (l : List (List Char)) (p : List Char), p ∈ l → p <:+: joinL sep l := by
  intro l
  induction l with
  | nil => intro p hp; simp at hp
  | cons x xs ih =>
    intro p hp
    rcases List.mem_cons.mp hp with h | h
    · subst h
      obtain ⟨r, hr⟩ := exists_append_joinL_head sep p xs
      exact ⟨[], r, by simpa using hr⟩
    · cases xs with
      | nil => simp at h
      | cons y ys =>
        obtain ⟨a, b, hab⟩ := ih p h
        refine ⟨x ++ sep ++ a, b, ?_⟩
        rw [joinL, ← hab]
        simp [List.append_assoc]

theorem foldl_funext {α β : Type} {f g : β → α → β} (h : ∀ b a, f b a = g b a) :
    ∀ (l : List α) (b : β), l.foldl f b = l.foldl g b := by
  intro l
  induction l with
  | nil => intro b; rfl
  | cons x xs ih => intro b; rw [List.foldl_cons, List.foldl_cons, h]; exact ih _

theorem placeholder_ne_nil (name : List Char) : placeholder name ≠ [] := by
  intro h
  unfold placeholder at h
  have h1 := List.append_eq_nil.mp h
  exact absurd h1.2 (by decide)

theorem pythonReplace_eq_joinL_pySplit (s pat rep : List Char) (hpat : pat ≠ []) :
    pythonReplace s pat rep = joinL rep (pySplit s pat) := by
  unfold pythonReplace pySplit
  rw [if_neg hpat]
  exact pyReplaceF_eq_joinL pat rep s.length s

/-! ## Claim C1 -/

/-- C1 counterexample: the claim's clause that occurrences of other ids'
placeholders are left unchanged fails when placeholders overlap.  With
the mapping holding id `x` (data absent) and id `x](![x](x` (data
present), the markdown — which is exactly the second id's placeholder —
contains the placeholder of `x` as a substring, but after substitution
it no longer does: the occurrence was destroyed by the overlapping
replacement. -/
theorem C1_counterexample :
    (placeholder "x".data <:+: "![x](![x](x](x](![x](x)".data)
    ∧ ¬ (placeholder "x".data <:+:
          replace_images_in_markdown "![x](![x](x](x](![x](x)".data
            [("x".data, none), ("x](![x](x".data, some "V".data)]) := by
  constructor
  · decide
  · decide

/-- C1 (amended): processing entries in mapping order, each present
entry rewrites the current markdown by splitting it at the left-to-right
non-overlapping literal occurrences of `![<id>](<id>)` and rejoining the
pieces with `![<id>](data:image/jpeg;base64,<value>)` — so every such
occurrence is replaced and the MIME type is hardcoded; the split pieces
contain no occurrence of the placeholder, and any substring (in
particular another id's placeholder occurrence) lying inside one of the
unreplaced pieces survives into the output.  Occurrences of other ids'
placeholders that overlap a replaced occurrence may be destroyed, as the
counterexample shows. -/
theorem C1_substitution_characterization :
    (∀ (md : List Char) (dict : ImagesDict),
      replace_images_in_markdown md dict = substituteImages_spec md dict)
    ∧ (∀ (s name : List Char),
        joinL (placeholder name) (pySplit s (placeholder name)) = s)
    ∧ (∀ (s name : List Char), ∀ p ∈ pySplit s (placeholder name),
        ¬ (placeholder name <:+: p))
    ∧ (∀ (s name v q : List Char), ∀ p ∈ pySplit s (placeholder name),
        q <:+: p →
        q <:+: joinL (dataURLrepl name v) (pySplit s (placeholder name))) := by
  refine ⟨?_, ?_, ?_, ?_⟩
  · intro md dict
    unfold replace_images_in_markdown substituteImages_spec
    apply foldl_funext
    intro b e
    cases he : e.2 with
    | none => rfl
    | some v =>
      exact pythonReplace_eq_joinL_pySplit b (placeholder e.1) (dataURLrepl e.1 v)
        (placeholder_ne_nil e.1)
  · intro s name
    exact joinL_pySplitF (placeholder name) (placeholder_ne_nil name) s.length s
      (Nat.le_refl _)
  · intro s name
    exact pySplitF_pieces_no_occurrence (placeholder name) (placeholder_ne_nil name)
      s.length s (Nat.le_refl _)
  · intro s name v q p hp hq
    exact hq.trans (inside_joinL_of_mem (dataURLrepl name v) _ p hp)

/-- C1 witness: the split of a concrete markdown around a concrete
placeholder, with a substring of an unreplaced piece surviving into the
substituted output. -/
theorem C1_witness :
    ("see ".data ∈ pySplit "see ![a](a) here".data (placeholder "a".data))
    ∧ ("see".data <:+: "see ".data)
    ∧ ("see".data <:+:
        joinL (dataURLrepl "a".data "QUJD".data)
          (pySplit "see ![a](a) here".data (placeholder "a".data))) :=
  ⟨by decide, by decide,
    C1_substitution_characterization.2.2.2 "see ![a](a) here".data "a".data
      "QUJD".data "see".data "see ".data (by decide) (by decide)⟩

/-! ## Claim C2 -/

/-- C2: the assembled document is the per-page substituted markdown in
original page order joined by exactly the separator of two newline
characters, with no page skipped, reordered, filtered, merged or
deduplicated, and the empty page list yields the empty string; the join
places one separator between each pair of consecutive pages. -/
theorem C2_assembleDocument :
    (∀ resp : OCRResponse,
      combine_ocr_pages_to_markdown resp = assembleDocument_spec resp)
    ∧ combine_ocr_pages_to_markdown ⟨[]⟩ = []
    ∧ (∀ resp : OCRResponse,
        (resp.pages.map
          (fun page =>
            replace_images_in_markdown page.markdown (buildImageData page.images))).length
          = resp.pages.length)
    ∧ (∀ (sep x : List Char) (xs : List (List Char)), xs ≠ [] →
        joinL sep (x :: xs) = x ++ sep ++ joinL sep xs) := by
  refine ⟨?_, rfl, ?_, ?_⟩
  · intro resp
    unfold combine_ocr_pages_to_markdown assembleDocument_spec
    rw [foldl_snoc_eq_map]
    simp
  · intro resp; simp
  · intro sep x xs hxs
    cases xs with
    | nil => exact absurd rfl hxs
    | cons y ys => rfl

/-- C2 witness: the join characterization applied at a concrete
two-page list. -/
theorem C2_witness :
    (["B".data] : List (List Char)) ≠ []
    ∧ joinL "\n\n".data ("A".data :: ["B".data])
        = "A".data ++ "\n\n".data ++ joinL "\n\n".data ["B".data] :=
  ⟨by decide, C2_assembleDocument.2.2.2 "\n\n".data "A".data ["B".data] (by decide)⟩

/-! ## Claim C3 -/

/-- C3 counterexample: an entry whose value is the empty string is
absent under the spec's non-empty notion of presence, yet
`replace_images_in_markdown` treats it as present (the code only tests
`is not None`) and rewrites its placeholder to a data URL with empty
payload. -/
theorem C3_counterexample :
    replace_images_in_markdown "![a](a)".data [("a".data, some ("".data))]
        = "![a](data:image/jpeg;base64,)".data
    ∧ ¬ (replace_images_in_markdown "![a](a)".data [("a".data, some ("".data))]
        = "![a](a)".data) := by
  constructor
  · decide
  · decide

/-- C3 (amended): for a mapping all of whose values are missing (None),
`replace_images_in_markdown` returns the markdown unchanged, hence
applying it twice with that mapping equals applying it once.  (An entry
carrying the empty string counts as present for the code and is
substituted; `combine_ocr_pages_to_markdown` normalizes such values to
None before calling.) -/
theorem C3_absent_values_identity :
    ∀ (md : List Char) (dict : ImagesDict), (∀ e ∈ dict, e.2 = none) →
      replace_images_in_markdown md dict = md
      ∧ replace_images_in_markdown (replace_images_in_markdown md dict) dict
          = replace_images_in_markdown md dict := by
  intro md dict h
  have h1 := replace_images_all_none dict md h
  constructor
  · exact h1
  · rw [h1]
    exact h1

/-- C3 witness: the all-missing identity at a concrete markdown and
mapping. -/
theorem C3_witness :
    (∀ e ∈ ([("a".data, (none : Option (List Char)))] : ImagesDict), e.2 = none)
    ∧ replace_images_in_markdown "![a](a)".data [("a".data, none)] = "![a](a)".data :=
  ⟨by decide,
    (C3_absent_values_identity "![a](a)".data [("a".data, none)] (by decide)).1⟩

/-! ## Claim C8 -/

/-- C8: the dict built per page by `combine_ocr_pages_to_markdown` never
holds an empty-string base64 value — a missing, None or empty
`image_base64` is normalized to the absent value — so no substitution
ever embeds a `data:image/jpeg;base64,` URL with empty payload. -/
theorem C8_empty_base64_normalized :
    (∀ images : List OCRImage, hasEmptyB64 (buildImageData images) = false)
    ∧ (∀ v : Option (List Char), (v = none ∨ v = some []) → normalizeB64 v = none) := by
  constructor
  · intro images
    exact hasEmptyB64_buildImageData_loop images [] rfl
  · intro v hv
    rcases hv with h | h <;> simp [h, normalizeB64]

/-- C8 witness: the normalization applied to the empty-string value. -/
theorem C8_witness :
    ((some [] : Option (List Char)) = none ∨ (some [] : Option (List Char)) = some [])
    ∧ normalizeB64 (some []) = none :=
  ⟨Or.inr rfl, C8_empty_base64_normalized.2 (some []) (Or.inr rfl)⟩

/-! ## Claim C10 -/

/-- C10: when a page's image list has several entries with the same id,
the dict keeps the (normalized) value of the last such entry in list
order — each later assignment overwrites the earlier one — and the
substitution for that id therefore uses only that last value. -/
theorem C10_duplicate_ids_last_wins :
    ∀ (images : List OCRImage) (id : List Char),
      dictLookup (buildImageData images) id
        = (lastMatch images id).map (fun img => normalizeB64 img.image_base64) := by
  intro images id
  have h := dictLookup_buildImageData_loop images [] id
  rw [buildImageData, h]
  cases lastMatch images id <;> simp [dictLookup]

theorem decodeChar_encodeChar : ∀ n, n < 64 → decodeChar (encodeChar n) = n := by decide

theorem encodeChar_ne_pad : ∀ n, n < 64 → encodeChar n ≠ '=' := by decide

theorem b64_roundtrip :
    ∀ bs : List Nat, (∀ x ∈ bs, x < 256) → b64decode (b64encode bs) = bs := by
  intro bs
  induction bs using b64encode.induct with
  | case1 => intro _; rfl
  | case2 a =>
    intro h
    have ha : a < 256 := h a (by simp)
    rw [b64encode]
    rw [show b64decode
        [encodeChar (a / 4), encodeChar (a % 4 * 16), '=', '=']
        = [decodeChar (encodeChar (a / 4)) * 4 + decodeChar (encodeChar (a % 4 * 16)) / 16]
      from by simp [b64decode]]
    rw [decodeChar_encodeChar _ (by omega), decodeChar_encodeChar _ (by omega)]
    congr 1
    omega
  | case3 a b =>
    intro h
    have ha : a < 256 := h a (by simp)
    have hb : b < 256 := h b (by simp)
    rw [b64encode]
    rw [show b64decode
        [encodeChar (a / 4), encodeChar (a % 4 * 16 + b / 16), encodeChar (b % 16 * 4), '=']
        = [decodeChar (encodeChar (a / 4)) * 4
            + decodeChar (encodeChar (a % 4 * 16 + b / 16)) / 16,
           decodeChar (encodeChar (a % 4 * 16 + b / 16)) % 16 * 16
            + decodeChar (encodeChar (b % 16 * 4)) / 4]
      from by simp [b64decode, encodeChar_ne_pad (b % 16 * 4) (by omega)]]
    rw [decodeChar_encodeChar _ (by omega), decodeChar_encodeChar _ (by omega),
      decodeChar_encodeChar _ (by omega)]
    have h1 : a / 4 * 4 + (a % 4 * 16 + b / 16) / 16 = a := by omega
    have h2 : (a % 4 * 16 + b / 16) % 16 * 16 + b % 16 * 4 / 4 = b := by omega
    rw [h1, h2]
  | case4 a b c rest ih =>
    intro h
    have ha : a < 256 := h a (by simp)
    have hb : b < 256 := h b (by simp)
    have hc : c < 256 := h c (by simp)
    have hrest : ∀ x ∈ rest, x < 256 := fun x hx => h x (by simp [hx])
    rw [b64encode]
    rw [show b64decode
        (encodeChar (a / 4) :: encodeChar (a % 4 * 16 + b / 16)
          :: encodeChar (b % 16 * 4 + c / 64) :: encodeChar (c % 64) :: b64encode rest)
        = (decodeChar (encodeChar (a / 4)) * 4
            + decodeChar (encodeChar (a % 4 * 16 + b / 16)) / 16)
          :: (decodeChar (encodeChar (a % 4 * 16 + b / 16)) % 16 * 16
            + decodeChar (encodeChar (b % 16 * 4 + c / 64)) / 4)
          :: (decodeChar (encodeChar (b % 16 * 4 + c / 64)) % 4 * 64
            + decodeChar (encodeChar (c % 64)))
          :: b64decode (b64encode rest)
      from by
        simp [b64decode, encodeChar_ne_pad (b % 16 * 4 + c / 64) (by omega),
          encodeChar_ne_pad (c % 64) (by omega)]]
    rw [decodeChar_encodeChar _ (by omega), decodeChar_encodeChar _ (by omega),
      decodeChar_encodeChar _ (by omega), decodeChar_encodeChar _ (by omega), ih hrest]
    have h1 : a / 4 * 4 + (a % 4 * 16 + b / 16) / 16 = a := by omega
    have h2 : (a % 4 * 16 + b / 16) % 16 * 16 + (b % 16 * 4 + c / 64) / 4 = b := by omega
    have h3 : (b % 16 * 4 + c / 64) % 4 * 64 + c % 64 = c := by omega
    rw [h1, h2, h3]

/-! ## Claim C4 -/

/-- C4: base64 encoding (as `encode_pdf_to_base64` applies to file
contents) followed by base64 decoding restores the original byte
sequence, and `create_data_url` returns exactly the string
`data:<mime_type>;base64,<data>`, with `application/pdf` as the default
MIME type. -/
theorem C4_base64_roundtrip_and_data_url :
    (∀ bs : List Nat, (∀ x ∈ bs, x < 256) → b64decode (b64encode bs) = bs)
    ∧ (∀ d m : String, create_data_url d m = "data:" ++ m ++ ";base64," ++ d)
    ∧ (∀ d : String, create_data_url d = "data:application/pdf;base64," ++ d) := by
  refine ⟨b64_roundtrip, fun d m => rfl, fun d => ?_⟩
  unfold create_data_url
  rfl

/-- C4 witness: the round trip on a concrete byte sequence. -/
theorem C4_witness :
    (∀ x ∈ [0, 77, 255], x < 256)
    ∧ b64decode (b64encode [0, 77, 255]) = [0, 77, 255] :=
  ⟨by decide, C4_base64_roundtrip_and_data_url.1 [0, 77, 255] (by decide)⟩

/-! ## Claim C5 -/

/-- C5 counterexample: a path that exists but cannot be opened (the open
raises, for example, `PermissionError` rather than `FileNotFoundError`)
is caught by the generic `except Exception` clause, so the failure is an
Encoding-kind error, not the NotFound kind the claim requires for every
path that cannot be opened. -/
theorem C5_counterexample :
    isNotFoundErr
      (encode_pdf_to_base64
        (fun _ => OpenReadOutcome.errOpenOther "Permission denied") "locked.pdf") = false
    ∧ isEncodingErr
      (encode_pdf_to_base64
        (fun _ => OpenReadOutcome.errOpenOther "Permission denied") "locked.pdf") = true :=
  ⟨rfl, rfl⟩

/-- C5 (amended): `encode_pdf_to_base64` fails with a NotFound-kind
error exactly when opening the file raises a file-not-found error (the
path does not exist); any other open or read failure fails with an
Encoding-kind error wrapping the underlying I/O error; on success it
returns the base64 text of the file's full contents. -/
theorem C5_error_kinds :
    ∀ (fs : String → OpenReadOutcome) (p : String),
      (isNotFoundErr (encode_pdf_to_base64 fs p) = true
        ↔ fs p = OpenReadOutcome.errFileNotFound)
      ∧ (isEncodingErr (encode_pdf_to_base64 fs p) = true
        ↔ ∃ m, fs p = OpenReadOutcome.errOpenOther m ∨ fs p = OpenReadOutcome.errRead m)
      ∧ (∀ contents, fs p = OpenReadOutcome.ok contents →
          encode_pdf_to_base64 fs p = Except.ok (b64encode contents)) := by
  intro fs p
  cases hfs : fs p <;>
    simp [encode_pdf_to_base64, hfs, isNotFoundErr, isEncodingErr]

/-- C5 witness: a successful read of concrete contents is encoded. -/
theorem C5_witness :
    ((fun _ => OpenReadOutcome.ok [1, 2, 3]) "doc.pdf" = OpenReadOutcome.ok [1, 2, 3])
    ∧ encode_pdf_to_base64 (fun _ => OpenReadOutcome.ok [1, 2, 3]) "doc.pdf"
        = Except.ok (b64encode [1, 2, 3]) :=
  ⟨rfl,
    (C5_error_kinds (fun _ => OpenReadOutcome.ok [1, 2, 3]) "doc.pdf").2.2 [1, 2, 3] rfl⟩

/-! ## Claim C7 -/

/-- C7: when the input path does not exist, `main` returns exit code 1
and performs no file write (and never reaches `process_pdf`): the
failure occurs before any write to the output path. -/
theorem C7_no_output_on_missing_input :
    ∀ (args : ParsedArgs) (env : CliEnv) (p : String),
      args.pdf_file = some p → env.pathExists p = false →
      (mainModel args env).exitCode = 1
      ∧ (mainModel args env).writes = []
      ∧ (mainModel args env).procCalls = [] := by
  intro args env p hpf hex
  unfold mainModel
  rw [hpf]
  by_cases hp : p = "" <;> simp [hp, hex]

/-- C7 witness: a concrete invocation with a missing input file and an
output path. -/
theorem C7_witness :
    ((⟨false, false, some "out.md", none, true, some "missing.pdf"⟩ : ParsedArgs).pdf_file
        = some "missing.pdf")
    ∧ ((⟨fun _ => false, none, fun _ _ => Except.error "e", fun _ => true⟩ :
          CliEnv).pathExists "missing.pdf" = false)
    ∧ (mainModel ⟨false, false, some "out.md", none, true, some "missing.pdf"⟩
        ⟨fun _ => false, none, fun _ _ => Except.error "e", fun _ => true⟩).exitCode = 1
    ∧ (mainModel ⟨false, false, some "out.md", none, true, some "missing.pdf"⟩
        ⟨fun _ => false, none, fun _ _ => Except.error "e", fun _ => true⟩).writes = []
    ∧ (mainModel ⟨false, false, some "out.md", none, true, some "missing.pdf"⟩
        ⟨fun _ => false, none, fun _ _ => Except.error "e", fun _ => true⟩).procCalls = [] := by
  refine ⟨rfl, rfl, ?_⟩
  have h := C7_no_output_on_missing_input
    ⟨false, false, some "out.md", none, true, some "missing.pdf"⟩
    ⟨fun _ => false, none, fun _ _ => Except.error "e", fun _ => true⟩
    "missing.pdf" rfl rfl
  exact ⟨h.1, h.2.1, h.2.2⟩

/-! ## Claim C6 -/

/-- C6: for every parsed argument namespace and environment, `main`
returns the exit code the spec enumerates — 1 when no input file is
given (after printing help), when the input path does not exist, when
its extension is not `.pdf`, or when any processing exception occurs
(missing API key, `process_pdf` failure, or output-write failure) — and
0 otherwise; the exit code is always 0 or 1.  (Argument lists rejected
by argparse never reach `main`'s body: argparse exits the process
itself, so they return no exit code from `main`.) -/
theorem C6_exit_code :
    ∀ (args : ParsedArgs) (env : CliEnv),
      (mainModel args env).exitCode = mainExit_spec args env
      ∧ ((mainModel args env).exitCode = 0 ∨ (mainModel args env).exitCode = 1) := by
  intro args env
  suffices h : (mainModel args env).exitCode = mainExit_spec args env
      ∧ (mainExit_spec args env = 0 ∨ mainExit_spec args env = 1) by
    exact ⟨h.1, by rw [h.1]; exact h.2⟩
  unfold mainModel mainExit_spec processingFails exceptFails writeFails
  cases hpf : args.pdf_file with
  | none => simp
  | some p =>
    by_cases hp : p = ""
    · simp [hp]
    · by_cases hex : env.pathExists p = false
      · simp [hp, hex]
      · by_cases hsf : suffixIsPdf p = false
        · simp [hp, hex, hsf]
        · cases hk : resolveKey args.api_key env.apiKeyEnv with
          | none => simp [hp, hex, hsf, hk]
          | some key =>
            cases hpr : env.processPdf p args.include_images with
            | error e => simp [hp, hex, hsf, hk, hpr]
            | ok md =>
              cases ho : args.output with
              | none => simp [hp, hex, hsf, hk, hpr, ho]
              | some o =>
                by_cases hoe : o = ""
                · simp [hp, hex, hsf, hk, hpr, ho, hoe]
                · by_cases hw : env.writeText o
                  · simp [hp, hex, hsf, hk, hpr, ho, hoe, hw]
                  · simp [hp, hex, hsf, hk, hpr, ho, hoe, hw]

/-! ## Claim C9 -/

theorem parseArgsAux_keeps_include_images :
    ∀ (n : Nat) (tokens : List String), tokens.length ≤ n →
      ∀ (acc : ParsedArgs) (seen : Bool), acc.include_images = true →
      ∀ args : ParsedArgs, parseArgsAux tokens acc seen = some args →
      args.include_images = true := by
  intro n
  induction n with
  | zero =>
    intro tokens hlen acc seen hacc args h
    have htok : tokens = [] := List.eq_nil_of_length_eq_zero (Nat.le_zero.mp hlen)
    subst htok
    simp [parseArgsAux] at h
    rw [← h]
    exact hacc
  | succ n ih =>
    intro tokens hlen acc seen hacc args h
    cases tokens with
    | nil =>
      simp [parseArgsAux] at h
      rw [← h]
      exact hacc
    | cons t ts =>
      cases ts with
      | nil =>
        rw [parseArgsAux] at h
        by_cases h1 : t = "--version"
        · rw [if_pos h1] at h; exact absurd h (by simp)
        rw [if_neg h1] at h
        by_cases h2 : t = "--debug"
        · rw [if_pos h2] at h
          exact ih [] (by simp) _ seen (by simpa using hacc) args h
        rw [if_neg h2] at h
        by_cases h3 : t = "--verbose" ∨ t = "-v"
        · rw [if_pos h3] at h
          exact ih [] (by simp) _ seen (by simpa using hacc) args h
        rw [if_neg h3] at h
        by_cases h4 : t = "--include-images"
        · rw [if_pos h4] at h
          exact ih [] (by simp) _ seen (by simp) args h
        rw [if_neg h4] at h
        by_cases h5 : t = "--output" ∨ t = "-o"
        · rw [if_pos h5] at h; exact absurd h (by simp)
        rw [if_neg h5] at h
        by_cases h6 : t = "--api-key"
        · rw [if_pos h6] at h; exact absurd h (by simp)
        rw [if_neg h6] at h
        by_cases h7 : isOptionLike t = true
        · rw [if_pos h7] at h; exact absurd h (by simp)
        rw [if_neg h7] at h
        by_cases h8 : seen = true
        · rw [if_pos h8] at h; exact absurd h (by simp)
        rw [if_neg h8] at h
        exact ih [] (by simp) _ true (by simpa using hacc) args h
      | cons v ts2 =>
        have htail : (v :: ts2).length ≤ n := by simp at hlen; simp; omega
        have hts2 : ts2.length ≤ n := by simp at hlen; omega
        rw [parseArgsAux] at h
        by_cases h1 : t = "--version"
        · rw [if_pos h1] at h; exact absurd h (by simp)
        rw [if_neg h1] at h
        by_cases h2 : t = "--debug"
        · rw [if_pos h2] at h
          exact ih (v :: ts2) htail _ seen (by simpa using hacc) args h
        rw [if_neg h2] at h
        by_cases h3 : t = "--verbose" ∨ t = "-v"
        · rw [if_pos h3] at h
          exact ih (v :: ts2) htail _ seen (by simpa using hacc) args h
        rw [if_neg h3] at h
        by_cases h4 : t = "--include-images"
        · rw [if_pos h4] at h
          exact ih (v :: ts2) htail _ seen (by simp) args h
        rw [if_neg h4] at h
        by_cases h5 : t = "--output" ∨ t = "-o"
        · rw [if_pos h5] at h
          exact ih ts2 hts2 _ seen (by simpa using hacc) args h
        rw [if_neg h5] at h
        by_cases h6 : t = "--api-key"
        · rw [if_pos h6] at h
          exact ih ts2 hts2 _ seen (by simpa using hacc) args h
        rw [if_neg h6] at h
        by_cases h7 : isOptionLike t = true
        · rw [if_pos h7] at h; exact absurd h (by simp)
        rw [if_neg h7] at h
        by_cases h8 : seen = true
        · rw [if_pos h8] at h; exact absurd h (by simp)
        rw [if_neg h8] at h
        exact ih (v :: ts2) htail _ true (by simpa using hacc) args h

theorem procCalls_use_args_include_images :
    ∀ (args : ParsedArgs) (env : CliEnv) (c : String × Bool),
      c ∈ (mainModel args env).procCalls → c.2 = args.include_images := by
  intro args env c
  unfold mainModel
  cases hpf : args.pdf_file with
  | none => intro h; simp at h
  | some p =>
    by_cases hp : p = ""
    · intro h; simp [hp] at h
    · by_cases hex : env.pathExists p = false
      · intro h; simp [hp, hex] at h
      · by_cases hsf : suffixIsPdf p = false
        · intro h; simp [hp, hex, hsf] at h
        · cases hk : resolveKey args.api_key env.apiKeyEnv with
          | none => intro h; simp [hp, hex, hsf, hk] at h
          | some key =>
            cases hpr : env.processPdf p args.include_images with
            | error e =>
              intro h
              simp [hp, hex, hsf, hk, hpr] at h
              rw [h]
            | ok md =>
              cases ho : args.output with
              | none =>
                intro h
                simp [hp, hex, hsf, hk, hpr, ho] at h
                rw [h]
              | some o =>
                by_cases hoe : o = ""
                · intro h
                  simp [hp, hex, hsf, hk, hpr, ho, hoe] at h
                  rw [h]
                · by_cases hw : env.writeText o
                  · intro h
                    simp [hp, hex, hsf, hk, hpr, ho, hoe, hw] at h
                    rw [h]
                  · intro h
                    simp [hp, hex, hsf, hk, hpr, ho, hoe, hw] at h
                    rw [h]

/-- C9: every argument list the parser accepts yields
`include_images = true` — the flag is store-true with default `True`, so
supplying it and omitting it coincide — and every `process_pdf` call
that `main` makes therefore passes `include_images = True`. -/
theorem C9_include_images_always_true :
    ∀ (tokens : List String) (args : ParsedArgs), parseArgs tokens = some args →
      args.include_images = true
      ∧ ∀ (env : CliEnv) (c : String × Bool),
          c ∈ (mainModel args env).procCalls → c.2 = true := by
  intro tokens args h
  have hinc := parseArgsAux_keeps_include_images tokens.length tokens (Nat.le_refl _)
    initialArgs false rfl args h
  refine ⟨hinc, fun env c hc => ?_⟩
  rw [procCalls_use_args_include_images args env c hc, hinc]

/-- C9 witness: a concrete accepted argument list whose parse carries
`include_images = true`. -/
theorem C9_witness :
    (parseArgs ["doc.pdf"]
        = some (⟨false, false, none, none, true, some "doc.pdf"⟩ : ParsedArgs))
    ∧ (⟨false, false, none, none, true, some "doc.pdf"⟩ : ParsedArgs).include_images
        = true :=
  ⟨by decide,
    (C9_include_images_always_true ["doc.pdf"]
      ⟨false, false, none, none, true, some "doc.pdf"⟩ (by decide)).1⟩

end MistralOcr
